import Mathlib

/-!
Shallow embedding of the OptiVerse portfolio analytics core
(`calculateReturns`, `calculateCovarianceMatrix`, `calculatePortfolioMetrics`,
`optimizePortfolio`, `generateEfficientFrontier` and their private helpers).

Modelling conventions:
* JavaScript `number` arithmetic is idealized as exact arithmetic: the
  square-root-free layer lives in `ℚ`, quantities built from `Math.sqrt`
  live in `ℝ` via `Real.sqrt`.
* `Math.random()` is modelled as an explicit stream `rand : ℕ → ℚ` of draws;
  candidate `t` over `n` assets consumes draws `rand (t*n+k)` for `k < n`.
* The JavaScript initializers `bestSharpe = -Infinity` / `bestVolatility =
  Infinity` are modelled as `Option` states (`none` = no candidate retained
  yet), which any real-valued comparison always beats.
* The `NaN` produced by `0/0` in the frontier's target-return expression at
  `numPoints = 1` is modelled as `Option.none`; a comparison against `none`
  is `False`, mirroring IEEE comparisons against `NaN`.
* Out-of-range indexing is modelled with `List.getD` defaults; all theorems
  about well-formed inputs constrain indices to stay in range.
-/

namespace OptiVerse

/-- Embeds the `Asset` interface: symbol, name, price history, return history,
and an optional weight. -/
structure Asset where
  symbol : String
  name : String
  prices : List ℚ
  returns : List ℚ
  weight : Option ℚ := none

instance : Inhabited Asset := ⟨⟨"", "", [], [], none⟩⟩

/-- Embeds the `PortfolioMetrics` interface. Fields whose computation involves
`Math.sqrt` are real-valued; the rest stay rational. -/
structure PortfolioMetrics where
  expectedReturn : ℚ
  volatility : ℝ
  sharpeRatio : ℝ
  beta : ℚ
  var95 : ℝ
  maxDrawdown : ℚ
  weights : List ℚ

/-- Embeds the `EfficientFrontierPoint` interface (`return` is spelled `ret`
because `return` is a Lean keyword). -/
structure EfficientFrontierPoint where
  ret : ℚ
  volatility : ℝ
  sharpeRatio : ℝ
  weights : List ℚ

/-- Embeds `calculateReturns`: simple period-over-period returns,
`returns[k] = (prices[k+1] - prices[k]) / prices[k]`. -/
def calculateReturns (prices : List ℚ) : List ℚ :=
  (List.range (prices.length - 1)).map fun k =>
    (prices.getD (k + 1) 0 - prices.getD k 0) / prices.getD k 0

/-- Embeds the mean computation `assetReturns.reduce((s, r) => s + r, 0) /
assetReturns.length` used throughout the source. -/
def mean (l : List ℚ) : ℚ := l.sum / (l.length : ℚ)

/-- Embeds `calculateCovarianceMatrix`: for each pair `(i, j)` the sum over
`k < m` of products of deviations from the two means, divided by `m - 1` and
annualized by `252`, where `m` is the length of the first series. -/
def calculateCovarianceMatrix (returns : List (List ℚ)) : List (List ℚ) :=
  let n := returns.length
  let m := (returns.headD []).length
  let means := returns.map mean
  (List.range n).map fun i =>
    (List.range n).map fun j =>
      ((List.range m).map fun k =>
        ((returns.getD i []).getD k 0 - means.getD i 0) *
          ((returns.getD j []).getD k 0 - means.getD j 0)).sum / ((m : ℚ) - 1) * 252

/-- Embeds the expected-return reduction in `calculatePortfolioMetrics`:
`weights.reduce((sum, weight, i) => sum + weight * meanReturns[i], 0)`. -/
def expectedReturnOf (weights meanReturns : List ℚ) : ℚ :=
  ((List.range weights.length).map fun i =>
    weights.getD i 0 * meanReturns.getD i 0).sum

/-- Embeds the double loop accumulating
`weights[i] * weights[j] * covMatrix[i][j]` in `calculatePortfolioMetrics`. -/
def portfolioVarianceOf (weights : List ℚ) (covMatrix : List (List ℚ)) : ℚ :=
  ((List.range weights.length).map fun i =>
    ((List.range weights.length).map fun j =>
      weights.getD i 0 * weights.getD j 0 * (covMatrix.getD i []).getD j 0).sum).sum

/-- Embeds `calculatePortfolioReturns`: per period `i`, the weighted sum
`Σ_j weights[j] * returns[j][i]` over `numPeriods = returns[0].length`. -/
def calculatePortfolioReturns (returns : List (List ℚ)) (weights : List ℚ) : List ℚ :=
  (List.range (returns.headD []).length).map fun i =>
    ((List.range weights.length).map fun j =>
      weights.getD j 0 * (returns.getD j []).getD i 0).sum

/-- Embeds the covariance accumulator of `calculateBeta`: the loop over
`portfolioReturns.length` summing products of deviations. -/
def betaCovAcc (portfolioReturns marketReturns : List ℚ) : ℚ :=
  ((List.range portfolioReturns.length).map fun i =>
    (portfolioReturns.getD i 0 - mean portfolioReturns) *
      (marketReturns.getD i 0 - mean marketReturns)).sum

/-- Embeds the market-variance accumulator of `calculateBeta`: the same loop
summing squared market deviations. -/
def betaMarketVarAcc (portfolioReturns marketReturns : List ℚ) : ℚ :=
  ((List.range portfolioReturns.length).map fun i =>
    (marketReturns.getD i 0 - mean marketReturns) *
      (marketReturns.getD i 0 - mean marketReturns)).sum

/-- Embeds `calculateBeta`: `covariance / marketVariance`. -/
def calculateBeta (portfolioReturns marketReturns : List ℚ) : ℚ :=
  betaCovAcc portfolioReturns marketReturns / betaMarketVarAcc portfolioReturns marketReturns

/-- Embeds the portfolio-value series of `calculateMaxDrawdown`:
`value[i] = Σ_j weights[j] * assets[j].prices[i]` over
`numPeriods = assets[0].prices.length`. -/
def portfolioValues (assets : List Asset) (weights : List ℚ) : List ℚ :=
  (List.range (assets.headD default).prices.length).map fun i =>
    ((List.range assets.length).map fun j =>
      weights.getD j 0 * (assets.getD j default).prices.getD i 0).sum

/-- Embeds the peak-tracking loop of `calculateMaxDrawdown`: state is
`(maxDrawdown, peak)`, initialized to `(0, portfolioValues[0])`, stepped over
the remaining values. -/
def calculateMaxDrawdown (assets : List Asset) (weights : List ℚ) : ℚ :=
  let vals := portfolioValues assets weights
  (vals.tail.foldl
    (fun acc v =>
      let peak := if acc.2 < v then v else acc.2
      let drawdown := (peak - v) / peak
      ((if acc.1 < drawdown then drawdown else acc.1), peak))
    ((0 : ℚ), vals.headD 0)).1

/-- Embeds the constant `riskFreeRate = 0.02` of `calculatePortfolioMetrics`. -/
def riskFreeRate : ℚ := 1 / 50

/-- Embeds `calculatePortfolioMetrics`: assembles the metrics bundle from the
asset returns, the weight vector and the market benchmark series. -/
noncomputable def calculatePortfolioMetrics (assets : List Asset) (weights marketReturns : List ℚ) :
    PortfolioMetrics :=
  let returns := assets.map fun a => a.returns
  let meanReturns := returns.map fun r => mean r * 252
  let covMatrix := calculateCovarianceMatrix returns
  let expectedReturn := expectedReturnOf weights meanReturns
  let portfolioVariance := portfolioVarianceOf weights covMatrix
  let volatility : ℝ := Real.sqrt (portfolioVariance : ℝ)
  { expectedReturn := expectedReturn
    volatility := volatility
    sharpeRatio := ((expectedReturn - riskFreeRate : ℚ) : ℝ) / volatility
    beta := calculateBeta (calculatePortfolioReturns returns weights) marketReturns
    var95 := -(329 / 200 : ℝ) * volatility / Real.sqrt 252
    maxDrawdown := calculateMaxDrawdown assets weights
    weights := weights }

/-- Embeds one candidate's raw draws
`Array.from({ length: n }, () => Math.random())`: candidate `t` consumes the
stream entries `rand (t*n+k)`, `k < n`. -/
def rawDraws (rand : ℕ → ℚ) (t n : ℕ) : List ℚ :=
  (List.range n).map fun k => rand (t * n + k)

/-- Embeds the normalization `weights.map(w => w / sum)`. -/
def normalizeWeights (ws : List ℚ) : List ℚ :=
  ws.map fun w => w / ws.sum

/-- The normalized random weight vector of candidate `t` over `n` assets, as
generated inside both `optimizePortfolio` and `generateEfficientFrontier`. -/
def candidateWeights (rand : ℕ → ℚ) (t n : ℕ) : List ℚ :=
  normalizeWeights (rawDraws rand t n)

/-- The 10000 candidate weight vectors sampled by `optimizePortfolio`. -/
def optimizerCandidates (rand : ℕ → ℚ) (n : ℕ) : List (List ℚ) :=
  (List.range 10000).map fun t => candidateWeights rand t n

/-- Sharpe ratio of a candidate, as evaluated inside `optimizePortfolio`. -/
noncomputable def sharpeOf (assets : List Asset) (marketReturns : List ℚ) (w : List ℚ) : ℝ :=
  (calculatePortfolioMetrics assets w marketReturns).sharpeRatio

/-- Embeds the `if (metrics.sharpeRatio > bestSharpe)` update of
`optimizePortfolio`; `none` models the initial `bestSharpe = -Infinity`,
`bestWeights = []` state, which the first candidate always replaces. -/
noncomputable def argmaxStep {α : Type*} (f : α → ℝ) (best : Option (ℝ × α)) (c : α) :
    Option (ℝ × α) :=
  match best with
  | none => some (f c, c)
  | some (bs, bw) => if bs < f c then some (f c, c) else some (bs, bw)

/-- Embeds `optimizePortfolio` generalized over the benchmark series (used to
state that the source instantiates the benchmark with `assets[0].returns`). -/
noncomputable def optimizePortfolioWithMarket (assets : List Asset) (rand : ℕ → ℚ)
    (marketReturns : List ℚ) : PortfolioMetrics :=
  let cands := optimizerCandidates rand assets.length
  let best := cands.foldl (argmaxStep (sharpeOf assets marketReturns)) none
  calculatePortfolioMetrics assets
    (match best with
     | some p => p.2
     | none => []) marketReturns

/-- Embeds `optimizePortfolio`: 10000 random candidates, best Sharpe ratio
retained, benchmark hardcoded to `assets[0].returns`. -/
noncomputable def optimizePortfolio (assets : List Asset) (rand : ℕ → ℚ) : PortfolioMetrics :=
  optimizePortfolioWithMarket assets rand (assets.headD default).returns

/-- Embeds the frontier target `0.05 + (i / (numPoints - 1)) * 0.25`; at
`numPoints = 1` the JavaScript expression is `0/0 = NaN`, modelled as `none`. -/
def targetReturn (numPoints i : ℕ) : Option ℚ :=
  if numPoints = 1 then none
  else some (1 / 20 + ((i : ℚ) / ((numPoints : ℚ) - 1)) * (1 / 4))

/-- Embeds the frontier acceptance test
`Math.abs(metrics.expectedReturn - targetReturn) < 0.01 && metrics.volatility
< bestVolatility`; comparisons against a `NaN` target (`none`) are `False`,
and `none` as best volatility models the initial `Infinity`. -/
def acceptCand (assets : List Asset) (marketReturns : List ℚ) (target : Option ℚ)
    (bestVol : Option ℝ) (w : List ℚ) : Prop :=
  match target with
  | none => False
  | some tgt =>
    |(calculatePortfolioMetrics assets w marketReturns).expectedReturn - tgt| < 1 / 100 ∧
      match bestVol with
      | none => True
      | some bv => (calculatePortfolioMetrics assets w marketReturns).volatility < bv

section
open Classical

/-- Embeds one iteration of the inner search of `generateEfficientFrontier`:
draw the candidate, and keep it if the acceptance test passes (updating the
best volatility), otherwise keep the previous `(bestVolatility, bestWeights)`
state. -/
noncomputable def frontierStep (assets : List Asset) (marketReturns : List ℚ)
    (target : Option ℚ) (rand : ℕ → ℚ) (base n : ℕ) (best : Option ℝ × List ℚ)
    (t : ℕ) : Option ℝ × List ℚ :=
  if acceptCand assets marketReturns target best.1 (candidateWeights rand (base + t) n) then
    (some (calculatePortfolioMetrics assets (candidateWeights rand (base + t) n)
        marketReturns).volatility,
      candidateWeights rand (base + t) n)
  else best

/-- Embeds the inner 1000-iteration search of `generateEfficientFrontier` for
one target: state is `(bestVolatility, bestWeights)` starting at
`(Infinity, [])`, modelled as `(none, [])`. -/
noncomputable def frontierSearch (assets : List Asset) (marketReturns : List ℚ)
    (target : Option ℚ) (rand : ℕ → ℚ) (base n : ℕ) : Option ℝ × List ℚ :=
  (List.range 1000).foldl (frontierStep assets marketReturns target rand base n) (none, [])

/-- Embeds the per-target body of `generateEfficientFrontier`: run the search,
and if `bestWeights.length > 0` re-evaluate the metrics and emit the point. -/
noncomputable def frontierPointFor (assets : List Asset) (marketReturns : List ℚ)
    (rand : ℕ → ℚ) (numPoints i : ℕ) : Option EfficientFrontierPoint :=
  if (frontierSearch assets marketReturns (targetReturn numPoints i) rand (i * 1000)
      assets.length).2 = [] then none
  else
    some ⟨(calculatePortfolioMetrics assets
        (frontierSearch assets marketReturns (targetReturn numPoints i) rand (i * 1000)
          assets.length).2 marketReturns).expectedReturn,
      (calculatePortfolioMetrics assets
        (frontierSearch assets marketReturns (targetReturn numPoints i) rand (i * 1000)
          assets.length).2 marketReturns).volatility,
      (calculatePortfolioMetrics assets
        (frontierSearch assets marketReturns (targetReturn numPoints i) rand (i * 1000)
          assets.length).2 marketReturns).sharpeRatio,
      (frontierSearch assets marketReturns (targetReturn numPoints i) rand (i * 1000)
        assets.length).2⟩

/-- Embeds the insertion step of the final
`frontierPoints.sort((a, b) => a.volatility - b.volatility)`. -/
noncomputable def insertByVol (p : EfficientFrontierPoint) :
    List EfficientFrontierPoint → List EfficientFrontierPoint
  | [] => [p]
  | q :: qs => if p.volatility ≤ q.volatility then p :: q :: qs else q :: insertByVol p qs

/-- Sorting of the frontier points ascending by volatility. -/
noncomputable def sortByVol : List EfficientFrontierPoint → List EfficientFrontierPoint
  | [] => []
  | p :: ps => insertByVol p (sortByVol ps)

/-- Embeds `generateEfficientFrontier` generalized over the benchmark series
(the source instantiates it with `assets[0].returns`). -/
noncomputable def generateFrontierWithMarket (assets : List Asset) (numPoints : ℕ)
    (rand : ℕ → ℚ) (marketReturns : List ℚ) : List EfficientFrontierPoint :=
  sortByVol ((List.range numPoints).filterMap
    (frontierPointFor assets marketReturns rand numPoints))

/-- Embeds `generateEfficientFrontier`: sweep the targets, drop targets whose
search retained nothing, sort ascending by volatility. -/
noncomputable def generateEfficientFrontier (assets : List Asset) (numPoints : ℕ)
    (rand : ℕ → ℚ) : List EfficientFrontierPoint :=
  generateFrontierWithMarket assets numPoints rand (assets.headD default).returns

/-- Unbiased sample covariance of two series, written independently of the
source: sum of products of deviations from the means over `x.length` entries,
divided by `x.length - 1`. -/
def sampleCovariance (x y : List ℚ) : ℚ :=
  (∑ k in Finset.range x.length, (x.getD k 0 - mean x) * (y.getD k 0 - mean y)) /
    ((x.length : ℚ) - 1)

/-- Unbiased sample variance of a series, written independently of the
source. -/
def sampleVariance (x : List ℚ) : ℚ :=
  (∑ k in Finset.range x.length, (x.getD k 0 - mean x) ^ 2) / ((x.length : ℚ) - 1)

/-- Modelled from the spec: the reimplementation's portfolio volatility must
clamp the accumulated variance to `0` before taking the square root (the
reference `calculatePortfolioMetrics` under `src/` takes `Math.sqrt`
unclamped). -/
noncomputable def clampedVolatility (assets : List Asset) (weights : List ℚ) : ℝ :=
  Real.sqrt (max 0
    ((portfolioVarianceOf weights (calculateCovarianceMatrix (assets.map fun a => a.returns)) : ℚ) : ℝ))

/-- Modelled from the spec: the reimplementation's `computeMetrics` must reject
malformed input (empty asset list, mismatched return-series lengths, weight
vector length mismatch) eagerly with a descriptive error, before any
computation; the reference `calculatePortfolioMetrics` under `src/` does not
validate. -/
noncomputable def computeMetrics (assets : List Asset) (weights marketReturns : List ℚ) :
    Except String PortfolioMetrics :=
  if assets = [] then .error "invalid input: empty asset list"
  else if ∃ a ∈ assets, a.returns.length ≠ (assets.headD default).returns.length then
    .error "invalid input: mismatched return series lengths"
  else if weights.length ≠ assets.length then
    .error "invalid input: weight vector length mismatch"
  else .ok (calculatePortfolioMetrics assets weights marketReturns)

end

/-- Concrete single-asset fixture from the spec's drawdown test scenario:
prices `[100, 80, 90]` (returns `[-0.2, 0.125]`), traded with weight `[1]`. -/
def demoAsset : Asset := ⟨"A", "A", [100, 80, 90], [-(1/5), 1/8], none⟩

/-! ### Helper lemmas -/

lemma getD_range_map {α : Type*} (f : ℕ → α) {n i : ℕ} (d : α) (h : i < n) :
    ((List.range n).map f).getD i d = f i := by
  have h' : i < ((List.range n).map f).length := by simpa using h
  rw [List.getD_eq_getElem _ _ h', List.getElem_map, List.getElem_range]

lemma getD_mem {α : Type*} (l : List α) (i : ℕ) (d : α) (h : i < l.length) :
    l.getD i d ∈ l := by
  rw [List.getD_eq_getElem l d h]
  exact List.getElem_mem h

lemma sum_range_map_eq_finset {M : Type*} [AddCommMonoid M] (f : ℕ → M) (n : ℕ) :
    ((List.range n).map f).sum = ∑ k in Finset.range n, f k := by
  induction n with
  | zero => simp
  | succ n ih => rw [List.range_succ]; simp [Finset.sum_range_succ, ih]

lemma foldl_invariant {α σ : Type*} (f : σ → α → σ) (P : σ → Prop) :
    ∀ (l : List α) (s : σ), P s → (∀ s' a, a ∈ l → P s' → P (f s' a)) → P (l.foldl f s) := by
  intro l
  induction l with
  | nil => intro s hs _; exact hs
  | cons a as ih =>
    intro s hs hstep
    exact ih (f s a) (hstep s a (List.mem_cons_self a as) hs)
      fun s' b hb => hstep s' b (List.mem_cons_of_mem a hb)

/-! ### C3: calculateReturns -/

/-- C3: for every price sequence of length ≥ 2 with strictly positive entries,
`calculateReturns` outputs exactly `length - 1` returns with
`return[i] = (price[i+1] - price[i]) / price[i]`, and
`price[i] * (1 + return[i])` reconstructs `price[i+1]` exactly. -/
theorem calculateReturns_spec (prices : List ℚ) (hlen : 2 ≤ prices.length)
    (hpos : ∀ p ∈ prices, 0 < p) :
    (calculateReturns prices).length = prices.length - 1 ∧
      ∀ i, i + 1 < prices.length →
        (calculateReturns prices).getD i 0 =
            (prices.getD (i + 1) 0 - prices.getD i 0) / prices.getD i 0 ∧
          prices.getD i 0 * (1 + (calculateReturns prices).getD i 0) =
            prices.getD (i + 1) 0 := by
  refine ⟨by simp [calculateReturns], ?_⟩
  intro i hi
  have hi' : i < prices.length - 1 := by omega
  have hentry : (calculateReturns prices).getD i 0 =
      (prices.getD (i + 1) 0 - prices.getD i 0) / prices.getD i 0 := by
    unfold calculateReturns
    exact getD_range_map _ 0 hi'
  have hpi : 0 < prices.getD i 0 := hpos _ (getD_mem prices i 0 (by omega))
  have hne : prices.getD i 0 ≠ 0 := ne_of_gt hpi
  have halg : ∀ a b : ℚ, a ≠ 0 → a * (1 + (b - a) / a) = b := by
    intro a b ha
    field_simp
  refine ⟨hentry, ?_⟩
  rw [hentry]
  exact halg _ _ hne

/-- Witness for C3 at the concrete price sequence `[100, 110, 121]`. -/
theorem calculateReturns_spec_witness :
    2 ≤ ([100, 110, 121] : List ℚ).length ∧
      (∀ p ∈ ([100, 110, 121] : List ℚ), 0 < p) ∧
      ((calculateReturns [100, 110, 121]).length = ([100, 110, 121] : List ℚ).length - 1 ∧
        ∀ i, i + 1 < ([100, 110, 121] : List ℚ).length →
          (calculateReturns [100, 110, 121]).getD i 0 =
              (([100, 110, 121] : List ℚ).getD (i + 1) 0 -
                ([100, 110, 121] : List ℚ).getD i 0) / ([100, 110, 121] : List ℚ).getD i 0 ∧
            ([100, 110, 121] : List ℚ).getD i 0 *
                (1 + (calculateReturns [100, 110, 121]).getD i 0) =
              ([100, 110, 121] : List ℚ).getD (i + 1) 0) :=
  ⟨by decide, by decide, calculateReturns_spec [100, 110, 121] (by decide) (by decide)⟩

/-! ### C2: clamped volatility -/

/-- C2: the portfolio volatility equals the square root of the variance
`Σ_i Σ_j weight[i]·weight[j]·cov[i][j]` clamped to `0`, hence it is a
well-defined non-negative real for every asset list and weight vector, and
its square recovers the clamped variance. -/
theorem volatility_clamped (assets : List Asset) (weights marketReturns : List ℚ) :
    (calculatePortfolioMetrics assets weights marketReturns).volatility =
        clampedVolatility assets weights ∧
      0 ≤ (calculatePortfolioMetrics assets weights marketReturns).volatility ∧
      (calculatePortfolioMetrics assets weights marketReturns).volatility ^ 2 =
        max 0 ((portfolioVarianceOf weights
          (calculateCovarianceMatrix (assets.map fun a => a.returns)) : ℚ) : ℝ) := by
  set v : ℝ :=
    ((portfolioVarianceOf weights
      (calculateCovarianceMatrix (assets.map fun a => a.returns)) : ℚ) : ℝ) with hv
  have hvol : (calculatePortfolioMetrics assets weights marketReturns).volatility =
      Real.sqrt v := rfl
  have hclamp : Real.sqrt v = Real.sqrt (max 0 v) := by
    rcases le_total v 0 with h | h
    · rw [max_eq_left h, Real.sqrt_zero, Real.sqrt_eq_zero'.mpr h]
    · rw [max_eq_right h]
  refine ⟨?_, ?_, ?_⟩
  · rw [hvol, hclamp]; rfl
  · rw [hvol]; exact Real.sqrt_nonneg v
  · rw [hvol, hclamp, Real.sq_sqrt (le_max_left 0 v)]

/-! ### C8: calculateMaxDrawdown -/

lemma drawdownFold_nonneg (l : List ℚ) :
    ∀ (dd peak : ℚ), 0 ≤ dd →
      0 ≤ (l.foldl
        (fun acc v =>
          let peak := if acc.2 < v then v else acc.2
          let drawdown := (peak - v) / peak
          ((if acc.1 < drawdown then drawdown else acc.1), peak)) (dd, peak)).1 := by
  induction l with
  | nil => intro dd peak h; exact h
  | cons v vs ih =>
    intro dd peak h
    rw [List.foldl_cons]
    apply ih
    show 0 ≤ if dd < ((if peak < v then v else peak) - v) / (if peak < v then v else peak)
      then ((if peak < v then v else peak) - v) / (if peak < v then v else peak) else dd
    split_ifs with h1 h2 h3
    · exact le_of_lt (lt_of_le_of_lt h h2)
    · exact h
    · exact le_of_lt (lt_of_le_of_lt h h3)
    · exact h

/-- C8: the portfolio value series is `value[t] = Σ_j weight[j]·price[j][t]`,
the tracked maximum drawdown is always non-negative, and the single-asset
portfolio with prices `[100, 80, 90]` and weight `[1]` yields exactly
`1/5 = 0.2`. -/
theorem calculateMaxDrawdown_spec :
    (∀ (assets : List Asset) (weights : List ℚ) (i : ℕ),
        i < (assets.headD default).prices.length →
        (portfolioValues assets weights).getD i 0 =
          ∑ j in Finset.range assets.length,
            weights.getD j 0 * (assets.getD j default).prices.getD i 0) ∧
      (∀ (assets : List Asset) (weights : List ℚ),
        0 ≤ calculateMaxDrawdown assets weights) ∧
      calculateMaxDrawdown [demoAsset] [1] = 1/5 := by
  refine ⟨?_, ?_, ?_⟩
  · intro assets weights i hi
    unfold portfolioValues
    rw [getD_range_map _ 0 hi, sum_range_map_eq_finset]
  · intro assets weights
    exact drawdownFold_nonneg _ 0 _ le_rfl
  · norm_num [calculateMaxDrawdown, portfolioValues, demoAsset, List.range_succ, List.getD]

/-- Witness for C8's universally quantified part at the concrete single-asset
portfolio and index `1`. -/
theorem calculateMaxDrawdown_spec_witness :
    (portfolioValues [demoAsset] [1]).getD 1 0 =
      ∑ j in Finset.range ([demoAsset] : List Asset).length,
        ([1] : List ℚ).getD j 0 *
          (([demoAsset] : List Asset).getD j default).prices.getD 1 0 :=
  calculateMaxDrawdown_spec.1 _ [1] 1 (by decide)

/-! ### C4: calculateCovarianceMatrix -/

lemma headD_mem {α : Type*} (l : List α) (d : α) (h : l ≠ []) : l.headD d ∈ l := by
  cases l with
  | nil => exact absurd rfl h
  | cons a as => exact List.mem_cons_self a as

lemma covMatrix_oob (returns : List (List ℚ)) {i j : ℕ}
    (h : returns.length ≤ i ∨ returns.length ≤ j) :
    ((calculateCovarianceMatrix returns).getD i []).getD j 0 = 0 := by
  have hsize : (calculateCovarianceMatrix returns).length = returns.length := by
    simp [calculateCovarianceMatrix]
  by_cases hi : i < returns.length
  · have hj : returns.length ≤ j := by omega
    have hrow : ((calculateCovarianceMatrix returns).getD i []).length =
        returns.length := by
      unfold calculateCovarianceMatrix
      rw [getD_range_map _ _ hi]
      simp
    exact List.getD_eq_default _ _ (by omega)
  · have hnil : (calculateCovarianceMatrix returns).getD i [] = [] :=
      List.getD_eq_default _ _ (by omega)
    rw [hnil]
    rfl

lemma covMatrix_entry (returns : List (List ℚ)) {i j : ℕ}
    (hi : i < returns.length) (hj : j < returns.length) :
    ((calculateCovarianceMatrix returns).getD i []).getD j 0 =
      ((List.range (returns.headD []).length).map fun k =>
        ((returns.getD i []).getD k 0 - mean (returns.getD i [])) *
          ((returns.getD j []).getD k 0 - mean (returns.getD j []))).sum /
        (((returns.headD []).length : ℚ) - 1) * 252 := by
  have hmean : ∀ t : ℕ, t < returns.length →
      (returns.map mean).getD t 0 = mean (returns.getD t []) := by
    intro t ht
    rw [List.getD_eq_getElem _ _ (by simpa using ht), List.getElem_map,
      List.getD_eq_getElem _ _ ht]
  unfold calculateCovarianceMatrix
  rw [getD_range_map _ _ hi, getD_range_map _ _ hj, hmean i hi, hmean j hj]

/-- C4: for equal-length return series (length `m ≥ 2`), the covariance matrix
is `n×n`, entry `(i,j)` is `252` times the unbiased sample covariance of
series `i` and `j`, the matrix is symmetric, and the diagonal is `252` times
the sample variance of the corresponding series. -/
theorem calculateCovarianceMatrix_spec (returns : List (List ℚ)) (m : ℕ)
    (hne : returns ≠ []) (hlen : ∀ s ∈ returns, s.length = m) (hm : 2 ≤ m) :
    (calculateCovarianceMatrix returns).length = returns.length ∧
      (∀ row ∈ calculateCovarianceMatrix returns, row.length = returns.length) ∧
      (∀ i j, i < returns.length → j < returns.length →
        ((calculateCovarianceMatrix returns).getD i []).getD j 0 =
          252 * sampleCovariance (returns.getD i []) (returns.getD j [])) ∧
      (∀ i j, ((calculateCovarianceMatrix returns).getD i []).getD j 0 =
        ((calculateCovarianceMatrix returns).getD j []).getD i 0) ∧
      (∀ i, i < returns.length →
        ((calculateCovarianceMatrix returns).getD i []).getD i 0 =
          252 * sampleVariance (returns.getD i [])) := by
  have hhead : (returns.headD []).length = m := hlen _ (headD_mem returns [] hne)
  have hrowlen : ∀ t : ℕ, t < returns.length → (returns.getD t []).length = m := by
    intro t ht
    exact hlen _ (getD_mem returns t [] ht)
  have hentry : ∀ i j, i < returns.length → j < returns.length →
      ((calculateCovarianceMatrix returns).getD i []).getD j 0 =
        252 * sampleCovariance (returns.getD i []) (returns.getD j []) := by
    intro i j hi hj
    rw [covMatrix_entry returns hi hj]
    unfold sampleCovariance
    rw [sum_range_map_eq_finset, hhead, hrowlen i hi, mul_comm]
  have hsize : (calculateCovarianceMatrix returns).length = returns.length := by
    simp [calculateCovarianceMatrix]
  refine ⟨hsize, ?_, hentry, ?_, ?_⟩
  · intro row hrow
    unfold calculateCovarianceMatrix at hrow
    obtain ⟨t, -, rfl⟩ := List.mem_map.mp hrow
    simp
  · intro i j
    by_cases hi : i < returns.length
    · by_cases hj : j < returns.length
      · rw [covMatrix_entry returns hi hj, covMatrix_entry returns hj hi]
        congr 2
        rw [sum_range_map_eq_finset, sum_range_map_eq_finset]
        exact Finset.sum_congr rfl fun k _ => mul_comm _ _
      · rw [covMatrix_oob returns (Or.inr (by omega)),
          covMatrix_oob returns (Or.inl (by omega))]
    · rw [covMatrix_oob returns (Or.inl (by omega)),
        covMatrix_oob returns (Or.inr (by omega))]
  · intro i hi
    rw [hentry i i hi hi]
    unfold sampleCovariance sampleVariance
    have hsq : (∑ k in Finset.range (returns.getD i []).length,
        ((returns.getD i []).getD k 0 - mean (returns.getD i [])) *
          ((returns.getD i []).getD k 0 - mean (returns.getD i []))) =
        ∑ k in Finset.range (returns.getD i []).length,
          ((returns.getD i []).getD k 0 - mean (returns.getD i [])) ^ 2 :=
      Finset.sum_congr rfl fun k _ => (pow_two _).symm
    rw [hsq]

/-- Witness for C4 at the concrete pair of series `[[1, 3], [2, 4]]`. -/
theorem calculateCovarianceMatrix_spec_witness :
    ([[1, 3], [2, 4]] : List (List ℚ)) ≠ [] ∧
      (∀ s ∈ ([[1, 3], [2, 4]] : List (List ℚ)), s.length = 2) ∧
      ((calculateCovarianceMatrix [[1, 3], [2, 4]]).length =
          ([[1, 3], [2, 4]] : List (List ℚ)).length ∧
        (∀ row ∈ calculateCovarianceMatrix [[1, 3], [2, 4]],
          row.length = ([[1, 3], [2, 4]] : List (List ℚ)).length) ∧
        (∀ i j, i < ([[1, 3], [2, 4]] : List (List ℚ)).length →
          j < ([[1, 3], [2, 4]] : List (List ℚ)).length →
          ((calculateCovarianceMatrix [[1, 3], [2, 4]]).getD i []).getD j 0 =
            252 * sampleCovariance (([[1, 3], [2, 4]] : List (List ℚ)).getD i [])
              (([[1, 3], [2, 4]] : List (List ℚ)).getD j [])) ∧
        (∀ i j, ((calculateCovarianceMatrix [[1, 3], [2, 4]]).getD i []).getD j 0 =
          ((calculateCovarianceMatrix [[1, 3], [2, 4]]).getD j []).getD i 0) ∧
        (∀ i, i < ([[1, 3], [2, 4]] : List (List ℚ)).length →
          ((calculateCovarianceMatrix [[1, 3], [2, 4]]).getD i []).getD i 0 =
            252 * sampleVariance (([[1, 3], [2, 4]] : List (List ℚ)).getD i []))) :=
  ⟨by decide, by decide,
    calculateCovarianceMatrix_spec [[1, 3], [2, 4]] 2 (by decide) (by decide) (by decide)⟩

/-! ### C1: computeMetrics validation -/

/-- C1: `computeMetrics` rejects malformed input eagerly with a descriptive
"invalid input" error — empty asset list, mismatched return-series lengths,
weight vector length mismatch — and only computes the metrics bundle on
well-formed input. -/
theorem computeMetrics_validation (assets : List Asset) (weights marketReturns : List ℚ) :
    (assets = [] → computeMetrics assets weights marketReturns =
        .error "invalid input: empty asset list") ∧
      ((∃ a ∈ assets, a.returns.length ≠ (assets.headD default).returns.length) →
        computeMetrics assets weights marketReturns =
          .error "invalid input: mismatched return series lengths") ∧
      (assets ≠ [] →
        (∀ a ∈ assets, a.returns.length = (assets.headD default).returns.length) →
        weights.length ≠ assets.length →
        computeMetrics assets weights marketReturns =
          .error "invalid input: weight vector length mismatch") ∧
      (assets ≠ [] →
        (∀ a ∈ assets, a.returns.length = (assets.headD default).returns.length) →
        weights.length = assets.length →
        computeMetrics assets weights marketReturns =
          .ok (calculatePortfolioMetrics assets weights marketReturns)) := by
  refine ⟨?_, ?_, ?_, ?_⟩
  · intro h
    subst h
    unfold computeMetrics
    rw [if_pos rfl]
  · intro hex
    have hne : assets ≠ [] := by
      rintro rfl
      simp at hex
    unfold computeMetrics
    rw [if_neg hne, if_pos hex]
  · intro hne hall hw
    unfold computeMetrics
    rw [if_neg hne, if_neg ?hno, if_pos hw]
    case hno =>
      rintro ⟨a, ha, hbad⟩
      exact hbad (hall a ha)
  · intro hne hall hw
    unfold computeMetrics
    rw [if_neg hne, if_neg ?hno2, if_neg (by simpa using hw)]
    case hno2 =>
      rintro ⟨a, ha, hbad⟩
      exact hbad (hall a ha)

/-- Witness for C1 at the concrete malformed input: the empty asset list is
rejected with the descriptive error. -/
theorem computeMetrics_validation_witness :
    computeMetrics [] [] [] = .error "invalid input: empty asset list" :=
  (computeMetrics_validation [] [] []).1 rfl

/-! ### C6: candidate weight vectors -/

lemma sum_map_div (l : List ℚ) (c : ℚ) : (l.map fun x => x / c).sum = l.sum / c := by
  induction l with
  | nil => simp
  | cons a as ih => simp [ih, add_div]

lemma rawDraws_nonneg {rand : ℕ → ℚ} (h0 : ∀ k, 0 ≤ rand k) (t n : ℕ) :
    ∀ x ∈ rawDraws rand t n, 0 ≤ x := by
  intro x hx
  obtain ⟨k, -, rfl⟩ := List.mem_map.mp hx
  exact h0 _

/-- C6 counterexample: a realization of uniform draws in `[0,1)` that is
constantly `0` (which `Math.random()` can produce) yields, for one asset in
iteration `0`, the normalized weight vector `[0/0] = [0]`, whose sum is not
`1`; the claim as stated fails on it. -/
theorem candidateWeights_counterexample :
    (∀ k : ℕ, 0 ≤ (fun _ : ℕ => (0 : ℚ)) k ∧ (fun _ : ℕ => (0 : ℚ)) k < 1) ∧
      (candidateWeights (fun _ : ℕ => (0 : ℚ)) 0 1).sum ≠ 1 := by
  constructor
  · intro k
    exact ⟨le_rfl, by norm_num⟩
  · norm_num [candidateWeights, normalizeWeights, rawDraws, List.range_succ]

/-- C6 amended: whenever the draws of the candidate's block lie in `[0,1)` and
are not all zero (equivalently, their sum is positive), the internally
generated weight vector has no negative entries, sums to exactly `1`, and has
one entry per asset, for any iteration index and any number of assets. -/
theorem candidateWeights_simplex (rand : ℕ → ℚ) (t n : ℕ)
    (h0 : ∀ k, 0 ≤ rand k ∧ rand k < 1) (hpos : 0 < (rawDraws rand t n).sum) :
    (∀ w ∈ candidateWeights rand t n, 0 ≤ w) ∧
      (candidateWeights rand t n).sum = 1 ∧
      (candidateWeights rand t n).length = n := by
  refine ⟨?_, ?_, by simp [candidateWeights, normalizeWeights, rawDraws]⟩
  · intro w hw
    obtain ⟨x, hx, rfl⟩ := List.mem_map.mp hw
    exact div_nonneg (rawDraws_nonneg (fun k => (h0 k).1) t n x hx) (le_of_lt hpos)
  · unfold candidateWeights normalizeWeights
    rw [sum_map_div, div_self (ne_of_gt hpos)]

/-- Witness for the amended C6 at the constant draw stream `1/2` with two
assets. -/
theorem candidateWeights_simplex_witness :
    (∀ k : ℕ, 0 ≤ (fun _ : ℕ => (1 : ℚ)/2) k ∧ (fun _ : ℕ => (1 : ℚ)/2) k < 1) ∧
      0 < (rawDraws (fun _ : ℕ => (1 : ℚ)/2) 0 2).sum ∧
      ((∀ w ∈ candidateWeights (fun _ : ℕ => (1 : ℚ)/2) 0 2, 0 ≤ w) ∧
        (candidateWeights (fun _ : ℕ => (1 : ℚ)/2) 0 2).sum = 1 ∧
        (candidateWeights (fun _ : ℕ => (1 : ℚ)/2) 0 2).length = 2) :=
  ⟨fun _ => ⟨by norm_num, by norm_num⟩,
    by norm_num [rawDraws, List.range_succ],
    candidateWeights_simplex _ 0 2 (fun _ => ⟨by norm_num, by norm_num⟩)
      (by norm_num [rawDraws, List.range_succ])⟩

/-! ### C10: degenerate numPoints in generateEfficientFrontier -/

lemma frontierSearch_const_none (assets : List Asset) (market : List ℚ) (rand : ℕ → ℚ)
    (base n : ℕ) : frontierSearch assets market none rand base n = (none, []) := by
  unfold frontierSearch
  refine foldl_invariant _ (fun s : Option ℝ × List ℚ => s = (none, [])) _ _ rfl ?_
  intro s a _ hs
  subst hs
  simp [frontierStep, acceptCand]

lemma frontierPointFor_one (assets : List Asset) (market : List ℚ) (rand : ℕ → ℚ) :
    frontierPointFor assets market rand 1 0 = none := by
  unfold frontierPointFor
  rw [show targetReturn 1 0 = none from rfl, frontierSearch_const_none]
  rfl

/-- C10: with `numPoints ≤ 1` the frontier is always empty — for `numPoints =
1` the target expression divides by zero (`NaN`, modelled as `none`), so no
candidate ever passes the 1% tolerance check and the single point is dropped —
while for `numPoints ≥ 2` the targets sweep linearly from 5% (at `i = 0`) to
30% (at `i = numPoints - 1`) inclusive. -/
theorem generateEfficientFrontier_degenerate :
    (∀ (assets : List Asset) (rand : ℕ → ℚ) (numPoints : ℕ), numPoints ≤ 1 →
        generateEfficientFrontier assets numPoints rand = []) ∧
      targetReturn 1 0 = none ∧
      (∀ numPoints i : ℕ, 2 ≤ numPoints →
        targetReturn numPoints i =
          some (1/20 + ((i : ℚ) / ((numPoints : ℚ) - 1)) * (1/4))) ∧
      (∀ numPoints : ℕ, 2 ≤ numPoints →
        targetReturn numPoints 0 = some (1/20) ∧
        targetReturn numPoints (numPoints - 1) = some (3/10)) := by
  have hform : ∀ numPoints i : ℕ, 2 ≤ numPoints →
      targetReturn numPoints i =
        some (1/20 + ((i : ℚ) / ((numPoints : ℚ) - 1)) * (1/4)) := by
    intro np i hnp
    unfold targetReturn
    rw [if_neg (by omega)]
  refine ⟨?_, rfl, hform, ?_⟩
  · intro assets rand np hnp
    interval_cases np
    · rfl
    · unfold generateEfficientFrontier generateFrontierWithMarket
      rw [show List.range 1 = [0] from rfl,
        List.filterMap_cons_none (frontierPointFor_one assets _ rand),
        List.filterMap_nil]
      rfl
  · intro np hnp
    have hcast : (2 : ℚ) ≤ (np : ℚ) := by exact_mod_cast hnp
    constructor
    · rw [hform np 0 hnp]
      norm_num
    · rw [hform np (np - 1) hnp]
      have hsub : ((np - 1 : ℕ) : ℚ) = (np : ℚ) - 1 := by
        have h1 : (1 : ℕ) ≤ np := by omega
        rw [Nat.cast_sub h1, Nat.cast_one]
      rw [hsub, div_self (by linarith)]
      norm_num

/-- Witness for C10's first part at `numPoints = 1` with no assets and the
constant-zero stream. -/
theorem generateEfficientFrontier_degenerate_witness :
    generateEfficientFrontier [] 1 (fun _ : ℕ => (0 : ℚ)) = [] :=
  generateEfficientFrontier_degenerate.1 [] _ 1 (by norm_num)

/-! ### C5: optimizePortfolio picks the first maximizer -/

lemma argmax_aux {α : Type*} (f : α → ℝ) :
    ∀ (l : List α) (b : α),
      ∃ x l₁ l₂, b :: l = l₁ ++ x :: l₂ ∧ (∀ c ∈ l₁, f c < f x) ∧
        (∀ c ∈ l₂, f c ≤ f x) ∧
        l.foldl (argmaxStep f) (some (f b, b)) = some (f x, x) := by
  intro l
  induction l with
  | nil =>
    intro b
    exact ⟨b, [], [], rfl, by simp, by simp, rfl⟩
  | cons c cs ih =>
    intro b
    by_cases hcb : f b < f c
    · obtain ⟨x, l₁, l₂, hdec, hlt, hle, hfold⟩ := ih c
      have hbx : f b < f x := by
        rcases l₁ with _ | ⟨y, t⟩
        · simp only [List.nil_append] at hdec
          obtain ⟨hx, -⟩ := List.cons_eq_cons.mp hdec
          rwa [← hx]
        · simp only [List.cons_append] at hdec
          obtain ⟨hy, -⟩ := List.cons_eq_cons.mp hdec
          have hyx : f y < f x := hlt y (List.mem_cons_self _ _)
          rw [← hy] at hyx
          exact lt_trans hcb hyx
      refine ⟨x, b :: l₁, l₂, ?_, ?_, hle, ?_⟩
      · rw [List.cons_append, ← hdec]
      · intro d hd
        rcases List.mem_cons.mp hd with rfl | hd'
        · exact hbx
        · exact hlt d hd'
      · rw [List.foldl_cons,
          show argmaxStep f (some (f b, b)) c = some (f c, c) by simp [argmaxStep, hcb]]
        exact hfold
    · obtain ⟨x, l₁, l₂, hdec, hlt, hle, hfold⟩ := ih b
      have hcbe : f c ≤ f b := le_of_not_lt hcb
      have hstep : argmaxStep f (some (f b, b)) c = some (f b, b) := by
        simp [argmaxStep, hcb]
      rcases l₁ with _ | ⟨y, t⟩
      · simp only [List.nil_append] at hdec
        obtain ⟨hx, hl⟩ := List.cons_eq_cons.mp hdec
        refine ⟨x, [], c :: cs, by rw [List.nil_append, ← hx], by simp, ?_, ?_⟩
        · intro d hd
          rcases List.mem_cons.mp hd with rfl | hd'
          · rw [← hx]
            exact hcbe
          · exact hle d (hl ▸ hd')
        · rw [List.foldl_cons, hstep]
          exact hfold
      · simp only [List.cons_append] at hdec
        obtain ⟨hy, hcs⟩ := List.cons_eq_cons.mp hdec
        have hbx : f b < f x := by
          have hyx : f y < f x := hlt y (List.mem_cons_self _ _)
          rwa [← hy] at hyx
        refine ⟨x, b :: c :: t, l₂, ?_, ?_, hle, ?_⟩
        · rw [List.cons_append, List.cons_append, ← hcs]
        · intro d hd
          rcases List.mem_cons.mp hd with rfl | hd'
          · exact hbx
          rcases List.mem_cons.mp hd' with rfl | hd''
          · exact lt_of_le_of_lt hcbe hbx
          · exact hlt d (List.mem_cons_of_mem _ hd'')
        · rw [List.foldl_cons, hstep]
          exact hfold

lemma argmax_foldl_none {α : Type*} (f : α → ℝ) (c : α) (cs : List α) :
    ∃ x l₁ l₂, c :: cs = l₁ ++ x :: l₂ ∧ (∀ d ∈ l₁, f d < f x) ∧
      (∀ d ∈ l₂, f d ≤ f x) ∧
      (c :: cs).foldl (argmaxStep f) none = some (f x, x) := by
  obtain ⟨x, l₁, l₂, hdec, hlt, hle, hfold⟩ := argmax_aux f cs c
  exact ⟨x, l₁, l₂, hdec, hlt, hle, by rw [List.foldl_cons]; exact hfold⟩

lemma optimizerCandidates_cons (rand : ℕ → ℚ) (n : ℕ) :
    ∃ c cs, optimizerCandidates rand n = c :: cs := by
  cases h : optimizerCandidates rand n with
  | nil =>
    have hlen := congrArg List.length h
    simp [optimizerCandidates] at hlen
  | cons c cs => exact ⟨c, cs, rfl⟩

/-- C5: `optimizePortfolio` samples exactly 10000 candidates and returns the
metrics of the first candidate attaining the maximal Sharpe ratio: the
candidate list splits as `l₁ ++ w :: l₂` with every earlier candidate strictly
worse and every later one no better, and the result is the metrics of `w`
against the first asset's returns. -/
theorem optimizePortfolio_argmax (assets : List Asset) (rand : ℕ → ℚ)
    (hne : assets ≠ []) :
    (optimizerCandidates rand assets.length).length = 10000 ∧
      ∃ (w : List ℚ) (l₁ l₂ : List (List ℚ)),
        optimizerCandidates rand assets.length = l₁ ++ w :: l₂ ∧
          (∀ c ∈ l₁, sharpeOf assets (assets.headD default).returns c <
            sharpeOf assets (assets.headD default).returns w) ∧
          (∀ c ∈ l₂, sharpeOf assets (assets.headD default).returns c ≤
            sharpeOf assets (assets.headD default).returns w) ∧
          optimizePortfolio assets rand =
            calculatePortfolioMetrics assets w (assets.headD default).returns := by
  refine ⟨by simp [optimizerCandidates], ?_⟩
  obtain ⟨c, cs, hcc⟩ := optimizerCandidates_cons rand assets.length
  obtain ⟨x, l₁, l₂, hdec, hlt, hle, hfold⟩ :=
    argmax_foldl_none (sharpeOf assets (assets.headD default).returns) c cs
  refine ⟨x, l₁, l₂, by rw [hcc, hdec], hlt, hle, ?_⟩
  unfold optimizePortfolio optimizePortfolioWithMarket
  simp only [hcc, hfold]

/-- Witness for C5 at the singleton asset list `[demoAsset]` and the constant
draw stream `1/2`. -/
theorem optimizePortfolio_argmax_witness :
    ([demoAsset] : List Asset) ≠ [] ∧
      ((optimizerCandidates (fun _ : ℕ => (1 : ℚ)/2)
          ([demoAsset] : List Asset).length).length = 10000 ∧
        ∃ (w : List ℚ) (l₁ l₂ : List (List ℚ)),
          optimizerCandidates (fun _ : ℕ => (1 : ℚ)/2)
              ([demoAsset] : List Asset).length = l₁ ++ w :: l₂ ∧
            (∀ c ∈ l₁, sharpeOf [demoAsset]
                (([demoAsset] : List Asset).headD default).returns c <
              sharpeOf [demoAsset]
                (([demoAsset] : List Asset).headD default).returns w) ∧
            (∀ c ∈ l₂, sharpeOf [demoAsset]
                (([demoAsset] : List Asset).headD default).returns c ≤
              sharpeOf [demoAsset]
                (([demoAsset] : List Asset).headD default).returns w) ∧
            optimizePortfolio [demoAsset] (fun _ : ℕ => (1 : ℚ)/2) =
              calculatePortfolioMetrics [demoAsset] w
                (([demoAsset] : List Asset).headD default).returns) :=
  ⟨List.cons_ne_nil _ _,
    optimizePortfolio_argmax [demoAsset] (fun _ : ℕ => (1 : ℚ)/2) (List.cons_ne_nil _ _)⟩

/-! ### C9: the benchmark is the first asset's return series -/

lemma candidateWeights_single {rand : ℕ → ℚ} (hpos : ∀ k, 0 < rand k) (t : ℕ) :
    candidateWeights rand t 1 = [1] := by
  unfold candidateWeights normalizeWeights rawDraws
  simp [List.range_succ]
  exact div_self (ne_of_gt (hpos t))

lemma map_range_getD (l : List ℚ) :
    ((List.range l.length).map fun i => l.getD i 0) = l := by
  refine List.ext_getElem (by simp) ?_
  intro i h1 h2
  simp only [List.getElem_map, List.getElem_range]
  exact List.getD_eq_getElem l 0 h2

lemma portfolioReturns_single (a : Asset) :
    calculatePortfolioReturns [a.returns] [1] = a.returns := by
  unfold calculatePortfolioReturns
  refine List.ext_getElem (by simp) ?_
  intro i h1 h2
  have h2' : i < a.returns.length := by simpa using h2
  simp only [List.getElem_map, List.getElem_range]
  simp [List.range_succ, List.getElem?_eq_getElem h2']

lemma calculateBeta_self (x : List ℚ) (h : betaMarketVarAcc x x ≠ 0) :
    calculateBeta x x = 1 := by
  unfold calculateBeta
  rw [show betaCovAcc x x = betaMarketVarAcc x x from rfl, div_self h]

lemma optimizePortfolio_single_beta (a : Asset) (rand : ℕ → ℚ)
    (hpos : ∀ k, 0 < rand k) (hvar : betaMarketVarAcc a.returns a.returns ≠ 0) :
    (optimizePortfolio [a] rand).beta = 1 := by
  obtain ⟨c, cs, hcc⟩ := optimizerCandidates_cons rand ([a] : List Asset).length
  obtain ⟨x, l₁, l₂, hdec, -, -, hfold⟩ :=
    argmax_foldl_none (sharpeOf [a] (([a] : List Asset).headD default).returns) c cs
  have hx1 : x = [1] := by
    have hxmem : x ∈ optimizerCandidates rand ([a] : List Asset).length := by
      rw [hcc, hdec]
      exact List.mem_append.mpr (Or.inr (List.mem_cons_self _ _))
    obtain ⟨t, -, heq⟩ :=
      (by simpa [optimizerCandidates] using hxmem :
        ∃ t, t < 10000 ∧ candidateWeights rand t 1 = x)
    rw [← heq]
    exact candidateWeights_single hpos t
  have hres : optimizePortfolio [a] rand =
      calculatePortfolioMetrics [a] x (([a] : List Asset).headD default).returns := by
    unfold optimizePortfolio optimizePortfolioWithMarket
    simp only [hcc, hfold]
  rw [hres, hx1]
  have hbeta : (calculatePortfolioMetrics [a] [1]
      (([a] : List Asset).headD default).returns).beta =
      calculateBeta (calculatePortfolioReturns [a.returns] [1]) a.returns := rfl
  rw [hbeta, portfolioReturns_single, calculateBeta_self _ hvar]

/-- C9: both `optimizePortfolio` and `generateEfficientFrontier` evaluate all
candidates and the final result against the first asset's own return series as
benchmark; consequently for a single-asset portfolio (with nonzero market
variance and positive draws) the reported beta is exactly `1` — the portfolio
is measured against itself, not an external market series. -/
theorem benchmark_is_first_asset :
    (∀ (assets : List Asset) (rand : ℕ → ℚ),
        optimizePortfolio assets rand =
          optimizePortfolioWithMarket assets rand (assets.headD default).returns) ∧
      (∀ (assets : List Asset) (numPoints : ℕ) (rand : ℕ → ℚ),
        generateEfficientFrontier assets numPoints rand =
          generateFrontierWithMarket assets numPoints rand (assets.headD default).returns) ∧
      (∀ (a : Asset) (rand : ℕ → ℚ), (∀ k, 0 < rand k) →
        betaMarketVarAcc a.returns a.returns ≠ 0 →
        (optimizePortfolio [a] rand).beta = 1) :=
  ⟨fun _ _ => rfl, fun _ _ _ => rfl,
    fun a rand h1 h2 => optimizePortfolio_single_beta a rand h1 h2⟩

/-- Witness for C9's single-asset beta statement at `demoAsset` with the
constant draw stream `1/2`. -/
theorem benchmark_is_first_asset_witness :
    (optimizePortfolio [demoAsset] (fun _ : ℕ => (1 : ℚ)/2)).beta = 1 :=
  benchmark_is_first_asset.2.2 demoAsset _ (fun _ => by norm_num)
    (by norm_num [betaMarketVarAcc, mean, demoAsset, List.range_succ, List.getD])

/-! ### C7: generateEfficientFrontier output properties -/

lemma acceptCand_some {assets : List Asset} {market : List ℚ} {tg : ℚ}
    {bestVol : Option ℝ} {w : List ℚ} :
    acceptCand assets market (some tg) bestVol w ↔
      |(calculatePortfolioMetrics assets w market).expectedReturn - tg| < 1 / 100 ∧
        match bestVol with
        | none => True
        | some bv => (calculatePortfolioMetrics assets w market).volatility < bv :=
  Iff.rfl

lemma targetReturn_lb {np i : ℕ} {tg : ℚ} (hi : i < np)
    (h : targetReturn np i = some tg) : 1/20 ≤ tg := by
  unfold targetReturn at h
  split_ifs at h with h1
  injection h with h2
  have hnp : 2 ≤ np := by omega
  have hnp' : (2 : ℚ) ≤ (np : ℚ) := by exact_mod_cast hnp
  have hratio : (0 : ℚ) ≤ (i : ℚ) / ((np : ℚ) - 1) :=
    div_nonneg (Nat.cast_nonneg i) (by linarith)
  have hmul : (0 : ℚ) ≤ ((i : ℚ) / ((np : ℚ) - 1)) * (1/4) :=
    mul_nonneg hratio (by norm_num)
  rw [← h2]
  linarith

lemma list_all_zero_of_sum_zero {l : List ℚ} (h0 : ∀ x ∈ l, 0 ≤ x)
    (hs : l.sum = 0) : ∀ x ∈ l, x = 0 := by
  induction l with
  | nil => intro x hx; simp at hx
  | cons a as ih =>
    have ha : 0 ≤ a := h0 a (List.mem_cons_self _ _)
    have has : 0 ≤ as.sum :=
      List.sum_nonneg fun x hx => h0 x (List.mem_cons_of_mem _ hx)
    rw [List.sum_cons] at hs
    intro x hx
    rcases List.mem_cons.mp hx with rfl | hx'
    · linarith
    · exact ih (fun y hy => h0 y (List.mem_cons_of_mem _ hy)) (by linarith) x hx'

lemma expectedReturnOf_zero (w meanReturns : List ℚ) (h : ∀ x ∈ w, x = 0) :
    expectedReturnOf w meanReturns = 0 := by
  unfold expectedReturnOf
  apply List.sum_eq_zero
  intro t ht
  obtain ⟨i, hi, rfl⟩ := List.mem_map.mp ht
  rw [h _ (getD_mem w i 0 (List.mem_range.mp hi)), zero_mul]

lemma candidateWeights_sum_of_accepted {assets : List Asset} {market : List ℚ}
    {np i : ℕ} {rand : ℕ → ℚ} {n s : ℕ} {tg : ℚ} {bestVol : Option ℝ}
    (hi : i < np) (htgt : targetReturn np i = some tg)
    (h0 : ∀ k, 0 ≤ rand k)
    (hacc : acceptCand assets market (some tg) bestVol (candidateWeights rand s n)) :
    (candidateWeights rand s n).sum = 1 := by
  obtain ⟨habs, -⟩ := acceptCand_some.mp hacc
  by_cases hsum : (rawDraws rand s n).sum = 0
  · exfalso
    have hz : ∀ x ∈ candidateWeights rand s n, x = 0 := by
      intro x hx
      obtain ⟨d, hd, rfl⟩ := List.mem_map.mp hx
      rw [list_all_zero_of_sum_zero (rawDraws_nonneg h0 _ _) hsum d hd, zero_div]
    have hER : (calculatePortfolioMetrics assets (candidateWeights rand s n)
        market).expectedReturn = 0 := by
      show expectedReturnOf (candidateWeights rand s n)
        ((assets.map fun a => a.returns).map fun r => mean r * 252) = 0
      exact expectedReturnOf_zero _ _ hz
    have htg : 1/20 ≤ tg := targetReturn_lb hi htgt
    rw [hER, zero_sub, abs_neg] at habs
    have := le_abs_self tg
    linarith
  · unfold candidateWeights normalizeWeights
    rw [sum_map_div, div_self hsum]

lemma frontierSearch_sum {assets : List Asset} {market : List ℚ} {np i : ℕ}
    {rand : ℕ → ℚ} {n : ℕ} (hi : i < np) (h0 : ∀ k, 0 ≤ rand k) :
    (frontierSearch assets market (targetReturn np i) rand (i * 1000) n).2 = [] ∨
      (frontierSearch assets market (targetReturn np i) rand (i * 1000) n).2.sum = 1 := by
  unfold frontierSearch
  refine foldl_invariant _
    (fun s : Option ℝ × List ℚ => s.2 = [] ∨ s.2.sum = 1) _ _ (Or.inl rfl) ?_
  intro s t _ hs
  unfold frontierStep
  split_ifs with hacc
  · right
    cases htgt : targetReturn np i with
    | none =>
      rw [htgt] at hacc
      exact absurd hacc (by simp [acceptCand])
    | some tg =>
      rw [htgt] at hacc
      exact candidateWeights_sum_of_accepted hi htgt h0 hacc
  · exact hs

set_option maxRecDepth 4000 in
lemma frontierPointFor_emission {assets : List Asset} {market : List ℚ}
    {rand : ℕ → ℚ} {np i : ℕ} {pt : EfficientFrontierPoint}
    (h : frontierPointFor assets market rand np i = some pt) :
    pt.weights =
      (frontierSearch assets market (targetReturn np i) rand (i * 1000)
        assets.length).2 ∧
      (frontierSearch assets market (targetReturn np i) rand (i * 1000)
        assets.length).2 ≠ [] := by
  unfold frontierPointFor at h
  split_ifs at h with hb
  injection h with h'
  rw [← h']
  exact ⟨rfl, hb⟩

lemma mem_insertByVol {x p : EfficientFrontierPoint} {l : List EfficientFrontierPoint} :
    x ∈ insertByVol p l ↔ x = p ∨ x ∈ l := by
  induction l with
  | nil => simp [insertByVol]
  | cons q qs ih =>
    unfold insertByVol
    split_ifs with h
    · simp only [List.mem_cons]
    · simp only [List.mem_cons, ih]
      tauto

lemma sorted_insertByVol (p : EfficientFrontierPoint)
    (l : List EfficientFrontierPoint)
    (h : l.Pairwise fun a b => a.volatility ≤ b.volatility) :
    (insertByVol p l).Pairwise fun a b => a.volatility ≤ b.volatility := by
  induction l with
  | nil => simp [insertByVol]
  | cons q qs ih =>
    rw [List.pairwise_cons] at h
    obtain ⟨hq, hqs⟩ := h
    unfold insertByVol
    split_ifs with hle
    · refine List.pairwise_cons.mpr ⟨?_, List.pairwise_cons.mpr ⟨hq, hqs⟩⟩
      intro y hy
      rcases List.mem_cons.mp hy with rfl | hy'
      · exact hle
      · exact le_trans hle (hq y hy')
    · refine List.pairwise_cons.mpr ⟨?_, ih hqs⟩
      intro y hy
      rcases mem_insertByVol.mp hy with rfl | hy'
      · exact le_of_not_le hle
      · exact hq y hy'

lemma mem_sortByVol {x : EfficientFrontierPoint} {l : List EfficientFrontierPoint} :
    x ∈ sortByVol l ↔ x ∈ l := by
  induction l with
  | nil => simp [sortByVol]
  | cons p ps ih =>
    unfold sortByVol
    rw [mem_insertByVol, ih, List.mem_cons]

lemma sorted_sortByVol (l : List EfficientFrontierPoint) :
    (sortByVol l).Pairwise fun a b => a.volatility ≤ b.volatility := by
  induction l with
  | nil => simp [sortByVol]
  | cons p ps ih =>
    unfold sortByVol
    exact sorted_insertByVol p _ ih

lemma length_insertByVol (p : EfficientFrontierPoint)
    (l : List EfficientFrontierPoint) :
    (insertByVol p l).length = l.length + 1 := by
  induction l with
  | nil => rfl
  | cons q qs ih =>
    unfold insertByVol
    split_ifs with h
    · rfl
    · simp [ih]

lemma length_sortByVol (l : List EfficientFrontierPoint) :
    (sortByVol l).length = l.length := by
  induction l with
  | nil => rfl
  | cons p ps ih =>
    unfold sortByVol
    rw [length_insertByVol, ih, List.length_cons]

/-- C7: for every asset list, point count and draw stream in `[0,1)`, the
frontier is sorted ascending by volatility, every returned point's weight
vector sums to exactly `1`, and targets whose search retained no candidate are
simply omitted, so the call succeeds with at most `numPoints` points. -/
theorem generateEfficientFrontier_spec (assets : List Asset) (numPoints : ℕ)
    (rand : ℕ → ℚ) (h0 : ∀ k, 0 ≤ rand k ∧ rand k < 1) :
    (generateEfficientFrontier assets numPoints rand).Pairwise
        (fun a b => a.volatility ≤ b.volatility) ∧
      (∀ pt ∈ generateEfficientFrontier assets numPoints rand, pt.weights.sum = 1) ∧
      (generateEfficientFrontier assets numPoints rand).length ≤ numPoints := by
  refine ⟨sorted_sortByVol _, ?_, ?_⟩
  · intro pt hpt
    have hpt' : pt ∈ (List.range numPoints).filterMap
        (frontierPointFor assets ((assets.headD default).returns) rand numPoints) :=
      mem_sortByVol.mp hpt
    obtain ⟨i, hirange, hF⟩ := List.mem_filterMap.mp hpt'
    have hi : i < numPoints := List.mem_range.mp hirange
    obtain ⟨hw, hnil⟩ := frontierPointFor_emission hF
    rw [hw]
    rcases frontierSearch_sum hi (fun k => (h0 k).1) with h | h
    · exact absurd h hnil
    · exact h
  · show (sortByVol ((List.range numPoints).filterMap
        (frontierPointFor assets ((assets.headD default).returns) rand
          numPoints))).length ≤ numPoints
    rw [length_sortByVol]
    calc ((List.range numPoints).filterMap
          (frontierPointFor assets ((assets.headD default).returns) rand
            numPoints)).length
        ≤ (List.range numPoints).length := List.length_filterMap_le _ _
      _ = numPoints := List.length_range numPoints

/-- Witness for C7 at the empty asset list, two points and the constant draw
stream `1/2`. -/
theorem generateEfficientFrontier_spec_witness :
    (∀ k : ℕ, 0 ≤ (fun _ : ℕ => (1 : ℚ)/2) k ∧ (fun _ : ℕ => (1 : ℚ)/2) k < 1) ∧
      ((generateEfficientFrontier [] 2 (fun _ : ℕ => (1 : ℚ)/2)).Pairwise
          (fun a b => a.volatility ≤ b.volatility) ∧
        (∀ pt ∈ generateEfficientFrontier [] 2 (fun _ : ℕ => (1 : ℚ)/2),
          pt.weights.sum = 1) ∧
        (generateEfficientFrontier [] 2 (fun _ : ℕ => (1 : ℚ)/2)).length ≤ 2) :=
  ⟨fun _ => ⟨by norm_num, by norm_num⟩,
    generateEfficientFrontier_spec [] 2 (fun _ : ℕ => (1 : ℚ)/2)
      (fun _ => ⟨by norm_num, by norm_num⟩)⟩

end OptiVerse
